import Mathlib

/-!
Shallow embedding of a two-command credential utility backed by the flat
JSON file `users.json`.

`KRISTO.HEQIMI.cpp` (register): parse `users.json`; if the document has
no `"users"` member, set it to an empty array; read `u p r` from stdin;
append the record with fields `username = u`,
`password_hash = "HASH_" + p`, `role = r` to the array; stream the
styled document back to `users.json`; fall off the end of `main`, hence
return 0 without ever inspecting the output stream.

`KRISO.HEQIMI2.cpp` (authenticate): parse `users.json`; if the document
has no `"users"` member, return 1 at once (nothing printed, stdin never
read); otherwise read `u p` from stdin and walk the array in order
looking for the first record whose `username` equals `u`; on a hash
match print `Logged in as u (role)` and return 0; on a hash mismatch
print `Incorrect password` and return 1; if no username matches print
`User not found` and return 1.
-/

/-- One element of the `"users"` array, with the JSON field names used
by the store file. -/
structure UserRecord where
  username : String
  password_hash : String
  role : String
deriving DecidableEq

/-- The parsed store document at the granularity the two programs
observe it: either the JSON value has no `"users"` member, or it has
one, holding an ordered sequence of records. -/
inductive StoreDoc where
  | noUsers : StoreDoc
  | users : List UserRecord → StoreDoc
deriving DecidableEq

/-- The on-disk state of `users.json` when a process starts: absent,
present but not parseable as JSON, valid JSON without a `"users"` key
(such as the document with only an `"other"` member), or valid JSON
with a `"users"` array. -/
inductive StoreFile where
  | missing : StoreFile
  | malformed : StoreFile
  | noUsersKey : StoreFile
  | withUsers : List UserRecord → StoreFile
deriving DecidableEq

/-- Outcome of parsing the store file: a document, or a fatal parse
error (the JSON library throws and the process dies with a non-zero
status before doing anything else). -/
inductive LoadResult where
  | ok : StoreDoc → LoadResult
  | malformedError : LoadResult
deriving DecidableEq

/-- The load step both programs run.  A missing or unreadable
file leaves the document without a `"users"` member, which the spec
describes as loading an empty store; a present but unparseable file is
the fatal `MalformedStoreError` case. -/
def load : StoreFile → LoadResult
  | .missing => .ok .noUsers
  | .malformed => .malformedError
  | .noUsersKey => .ok .noUsers
  | .withUsers l => .ok (.users l)

/-- One load viewed as a state transition on the file system: loading
opens the file for reading only, so the file comes back unchanged next
to the parse result. -/
def loadStep (f : StoreFile) : StoreFile × LoadResult := (f, load f)

/-- `hash_pass` from KRISO.HEQIMI2.cpp: prepend the fixed tag to the
plaintext. -/
def hash_pass (p : String) : String := "HASH_" ++ p

/-- What one process run shows to its caller: everything printed to
stdout and the exit code of `main`. -/
structure ProcResult where
  output : String
  exitCode : Nat
deriving DecidableEq

/-- The loop of KRISO.HEQIMI2.cpp over `db["users"]` with the two
stdin tokens `u` and `p` in hand. -/
def scanUsers (u p : String) : List UserRecord → ProcResult
  | [] => ⟨"User not found", 1⟩
  | e :: rest =>
    if e.username = u then
      if e.password_hash = hash_pass p then
        ⟨"Logged in as " ++ u ++ " (" ++ e.role ++ ")", 0⟩
      else
        ⟨"Incorrect password", 1⟩
    else
      scanUsers u p rest

/-- `main` of KRISO.HEQIMI2.cpp.  `none` is the process dying on a parse
exception.  When the document has no `"users"` member the program
returns 1 before reading anything from stdin, so that branch ignores
`u` and `p` and prints nothing. -/
def authMain (f : StoreFile) (u p : String) : Option ProcResult :=
  match load f with
  | .malformedError => none
  | .ok .noUsers => some ⟨"", 1⟩
  | .ok (.users l) => some (scanUsers u p l)

/-- The record sequence the register path works on after
`if (!db.isMember("users")) db["users"] = Json::arrayValue;` in
KRISTO.HEQIMI.cpp: a document without the key becomes the empty
sequence. -/
def normalizeUsers : StoreDoc → List UserRecord
  | .noUsers => []
  | .users l => l

/-- `main` of KRISTO.HEQIMI.cpp: load, normalize, append the new record,
stream the document to `users.json`.  The result is the file contents
the program writes together with its exit code.  `writeOk` says whether
the operating system accepts the write; the source never inspects the
output stream, so neither component of the result depends on it, and
`main` falls through to exit code 0 whenever the parse succeeded. -/
def registerMain (f : StoreFile) (u p r : String) (writeOk : Bool) :
    Option (StoreFile × Nat) :=
  match load f with
  | .malformedError => none
  | .ok doc =>
      some (.withUsers (normalizeUsers doc ++ [⟨u, "HASH_" ++ p, r⟩]), 0)

/-- A record whose `password_hash` begins with the five-character tag
`HASH_`, stated on the underlying character list. -/
def hashTagged (e : UserRecord) : Prop :=
  "HASH_".data <+: e.password_hash.data

/-! Helper lemmas shared by several claims. -/

theorem scanUsers_append_no_match (u p : String) (l₁ l₂ : List UserRecord)
    (h : ∀ e ∈ l₁, e.username ≠ u) :
    scanUsers u p (l₁ ++ l₂) = scanUsers u p l₂ := by
  induction l₁ with
  | nil => rfl
  | cons e rest ih =>
    have he : e.username ≠ u := h e (List.mem_cons_self e rest)
    simp only [List.cons_append, scanUsers, if_neg he]
    exact ih fun x hx => h x (List.mem_cons_of_mem _ hx)

theorem scanUsers_no_match (u p : String) (l : List UserRecord)
    (h : ∀ e ∈ l, e.username ≠ u) :
    scanUsers u p l = ⟨"User not found", 1⟩ := by
  have h2 := scanUsers_append_no_match u p l [] h
  rwa [List.append_nil] at h2

theorem hash_pass_injective : Function.Injective hash_pass := by
  intro p₁ p₂ h
  have hd : ("HASH_" ++ p₁).data = ("HASH_" ++ p₂).data := congrArg String.data h
  rw [String.data_append, String.data_append] at hd
  have hdata : p₁.data = p₂.data := List.append_cancel_left hd
  exact congrArg String.mk hdata

theorem scanUsers_ne_not_found (u p : String) (l : List UserRecord)
    (h : ∃ e ∈ l, e.username = u) :
    scanUsers u p l ≠ ⟨"User not found", 1⟩ := by
  induction l with
  | nil => simp at h
  | cons e rest ih =>
    by_cases he : e.username = u
    · simp only [scanUsers, if_pos he]
      by_cases hp : e.password_hash = hash_pass p
      · rw [if_pos hp]
        intro hcontra
        exact absurd (congrArg ProcResult.exitCode hcontra) (by simp)
      · rw [if_neg hp]
        intro hcontra
        have hout := congrArg ProcResult.output hcontra
        simp at hout
    · obtain ⟨x, hx, hxu⟩ := h
      rcases List.mem_cons.mp hx with hxe | hxr
      · exact absurd (hxe ▸ hxu) he
      · simp only [scanUsers, if_neg he]
        exact ih ⟨x, hxr, hxu⟩

/-! The claims. -/

/-- C1, counterexample: against the prior store holding the single
record `("alice", "HASH_other", "x")`, registering
`("alice", "secret", "admin")` and then authenticating
`("alice", "secret")` does not succeed: the scan stops at the old
"alice" record, prints `Incorrect password` and exits 1, refuting the
claim's quantification over every prior store contents. -/
theorem register_then_auth_existing_username_fails :
    registerMain (.withUsers [⟨"alice", "HASH_other", "x"⟩])
        "alice" "secret" "admin" true =
      some (.withUsers [⟨"alice", "HASH_other", "x"⟩,
        ⟨"alice", "HASH_secret", "admin"⟩], 0) ∧
    authMain (.withUsers [⟨"alice", "HASH_other", "x"⟩,
        ⟨"alice", "HASH_secret", "admin"⟩]) "alice" "secret" =
      some ⟨"Incorrect password", 1⟩ ∧
    (⟨"Incorrect password", 1⟩ : ProcResult).exitCode ≠ 0 := by
  refine ⟨rfl, by decide, by simp⟩

/-- C1, amended: for every prior store file that parses, provided no
already-stored record carries the registered username, registering
`(u, p, r)` and then authenticating `(u, p)` against the written file
succeeds: the scan finds the new record, the hash comparison passes,
the message contains the username and the registered role, and the
exit code is 0. -/
theorem register_then_authenticate_roundtrip (f : StoreFile)
    (doc : StoreDoc) (u p r : String) (hload : load f = .ok doc)
    (hfresh : ∀ e ∈ normalizeUsers doc, e.username ≠ u) :
    registerMain f u p r true =
      some (.withUsers (normalizeUsers doc ++ [⟨u, hash_pass p, r⟩]), 0) ∧
    authMain (.withUsers (normalizeUsers doc ++ [⟨u, hash_pass p, r⟩])) u p =
      some ⟨"Logged in as " ++ u ++ " (" ++ r ++ ")", 0⟩ := by
  constructor
  · simp only [registerMain, hload]
    rfl
  · simp only [authMain, load, scanUsers_append_no_match u p _ _ hfresh]
    simp [scanUsers]

/-- Witness for C1 amended: the round trip at the empty prior store with
`("alice", "secret", "admin")`. -/
theorem register_then_authenticate_roundtrip_witness :
    registerMain .missing "alice" "secret" "admin" true =
      some (.withUsers [⟨"alice", hash_pass "secret", "admin"⟩], 0) ∧
    authMain (.withUsers [⟨"alice", hash_pass "secret", "admin"⟩])
        "alice" "secret" =
      some ⟨"Logged in as alice (admin)", 0⟩ :=
  register_then_authenticate_roundtrip .missing .noUsers
    "alice" "secret" "admin" rfl (by simp [normalizeUsers])

/-- C2: the authenticate scan settles on the first record in insertion
order whose username equals the input; the outcome is decided there by
the hash comparison alone — wrong hash means `Incorrect password` with
exit 1 — and the records after the first match (`l₂`) do not appear in
the result, so a later duplicate username is unreachable. -/
theorem authenticate_first_match (l₁ l₂ : List UserRecord)
    (e : UserRecord) (u p : String)
    (h₁ : ∀ x ∈ l₁, x.username ≠ u) (h₂ : e.username = u) :
    authMain (.withUsers (l₁ ++ e :: l₂)) u p =
      some (if e.password_hash = hash_pass p then
              ⟨"Logged in as " ++ u ++ " (" ++ e.role ++ ")", 0⟩
            else ⟨"Incorrect password", 1⟩) := by
  simp only [authMain, load, scanUsers_append_no_match u p _ _ h₁]
  simp [scanUsers, h₂]

/-- Witness for C2: two records share the username `dup` with different
passwords; the first record's password logs in, the second record's
password is rejected with `Incorrect password`. -/
theorem authenticate_first_match_witness :
    authMain (.withUsers [⟨"dup", "HASH_pw1", "r1"⟩,
        ⟨"dup", "HASH_pw2", "r2"⟩]) "dup" "pw1" =
      some ⟨"Logged in as dup (r1)", 0⟩ ∧
    authMain (.withUsers [⟨"dup", "HASH_pw1", "r1"⟩,
        ⟨"dup", "HASH_pw2", "r2"⟩]) "dup" "pw2" =
      some ⟨"Incorrect password", 1⟩ := by
  have h1 := authenticate_first_match [] [⟨"dup", "HASH_pw2", "r2"⟩]
    ⟨"dup", "HASH_pw1", "r1"⟩ "dup" "pw1" (by simp) rfl
  have h2 := authenticate_first_match [] [⟨"dup", "HASH_pw2", "r2"⟩]
    ⟨"dup", "HASH_pw1", "r1"⟩ "dup" "pw2" (by simp) rfl
  exact ⟨by simpa [hash_pass] using h1, by simpa [hash_pass] using h2⟩

/-- C3: when no record's username equals the input the scan runs off the
end of the sequence and the process prints `User not found` and exits 1;
and whenever some record does carry the input username the result is
never the user-not-found one (a present username with a wrong password
gives the wrong-password outcome instead). -/
theorem authenticate_user_not_found (l : List UserRecord) (u p : String)
    (h : ∀ e ∈ l, e.username ≠ u) :
    authMain (.withUsers l) u p = some ⟨"User not found", 1⟩ ∧
    ∀ (l' : List UserRecord) (u' p' : String), (∃ e ∈ l', e.username = u') →
      authMain (.withUsers l') u' p' ≠ some ⟨"User not found", 1⟩ := by
  constructor
  · simp only [authMain, load]
    rw [scanUsers_no_match u p l h]
  · intro l' u' p' hex hcontra
    have : scanUsers u' p' l' = ⟨"User not found", 1⟩ := by
      simpa only [authMain, load, Option.some.injEq] using hcontra
    exact scanUsers_ne_not_found u' p' l' hex this

/-- Witness for C3: `("carol", "x")` against the empty store is
`User not found` with exit 1, while `("bob", "pw2")` against the store
holding `("bob", HASH_pw1, "user")` is not. -/
theorem authenticate_user_not_found_witness :
    authMain (.withUsers []) "carol" "x" = some ⟨"User not found", 1⟩ ∧
    authMain (.withUsers [⟨"bob", "HASH_pw1", "user"⟩]) "bob" "pw2" ≠
      some ⟨"User not found", 1⟩ := by
  have h := authenticate_user_not_found [] "carol" "x" (by simp)
  exact ⟨h.1, h.2 [⟨"bob", "HASH_pw1", "user"⟩] "bob" "pw2"
    ⟨⟨"bob", "HASH_pw1", "user"⟩, by simp, rfl⟩⟩

/-- C4, counterexample: on a store file with no `users` key the
authenticate entry point does not go on to work with an empty record
sequence — it exits 1 immediately, printing nothing, whereas running on
an actually empty sequence prints `User not found`.  So the
normalization to an empty store happens only in the register entry
point, refuting the "in both entry points" part of the claim. -/
theorem loader_normalization_counterexample :
    authMain .noUsersKey "carol" "x" = some ⟨"", 1⟩ ∧
    authMain (.withUsers []) "carol" "x" = some ⟨"User not found", 1⟩ ∧
    (some ⟨"", 1⟩ : Option ProcResult) ≠ some ⟨"User not found", 1⟩ := by
  refine ⟨rfl, rfl, by decide⟩

/-- C4, amended: a missing store file and a JSON document without a
`users` key both load as the no-`users` document; the register entry
point normalizes that document to an empty record sequence and proceeds
(appending to an empty store), while the authenticate entry point
instead exits 1 without output. -/
theorem loader_empty_store_normalization (u p r : String) (w : Bool) :
    load .missing = .ok .noUsers ∧
    load .noUsersKey = .ok .noUsers ∧
    normalizeUsers .noUsers = [] ∧
    registerMain .noUsersKey u p r w =
      some (.withUsers [⟨u, hash_pass p, r⟩], 0) ∧
    registerMain .missing u p r w =
      some (.withUsers [⟨u, hash_pass p, r⟩], 0) ∧
    authMain .noUsersKey u p = some ⟨"", 1⟩ :=
  ⟨rfl, rfl, rfl, rfl, rfl, rfl⟩

/-- C5: on every store file whose parsed document has no `users` key the
authenticate process exits with code 1 and empty output — the scan is
never entered (no scan message can appear) — and the result does not
depend on the username/password input, reflecting that the source
returns before reading stdin. -/
theorem auth_no_users_key_exits_one (f : StoreFile) (u p u' p' : String)
    (h : load f = .ok .noUsers) :
    authMain f u p = some ⟨"", 1⟩ ∧ authMain f u p = authMain f u' p' := by
  have h1 : authMain f u p = some ⟨"", 1⟩ := by simp [authMain, h]
  have h2 : authMain f u' p' = some ⟨"", 1⟩ := by simp [authMain, h]
  exact ⟨h1, h1.trans h2.symm⟩

/-- Witness for C5: the keyless document, with two different inputs. -/
theorem auth_no_users_key_exits_one_witness :
    authMain .noUsersKey "alice" "secret" = some ⟨"", 1⟩ ∧
    authMain .noUsersKey "alice" "secret" = authMain .noUsersKey "bob" "pw" :=
  auth_no_users_key_exits_one .noUsersKey "alice" "secret" "bob" "pw" rfl

/-- C6, counterexample: with the write failing (`writeOk = false`) the
register process still exits 0 — the source never inspects the output
stream — so exit code 0 is not equivalent to a successful write, and a
write failure never surfaces as a non-zero outcome. -/
theorem register_silent_write_failure :
    registerMain .missing "a" "b" "c" false =
      some (.withUsers [⟨"a", "HASH_b", "c"⟩], 0) ∧
    ¬ (∀ (f : StoreFile) (u p r : String) (w : Bool) (out : StoreFile × Nat),
        registerMain f u p r w = some out → (out.2 = 0 ↔ w = true)) := by
  refine ⟨rfl, fun h => ?_⟩
  have hfalse := (h .missing "a" "b" "c" false
    (.withUsers [⟨"a", "HASH_b", "c"⟩], 0) rfl).mp rfl
  exact Bool.false_ne_true hfalse

/-- C6, amended: whenever the store file parses, the register process
exits with code 0 irrespective of whether the write succeeds; the
result of the run is identical for a failed and a successful write, so
no write failure is ever detected or reported. -/
theorem register_exit_zero_ignores_write (f : StoreFile) (doc : StoreDoc)
    (u p r : String) (w : Bool) (h : load f = .ok doc) :
    registerMain f u p r w =
      some (.withUsers (normalizeUsers doc ++ [⟨u, hash_pass p, r⟩]), 0) ∧
    registerMain f u p r w = registerMain f u p r true := by
  have h1 : registerMain f u p r w =
      some (.withUsers (normalizeUsers doc ++ [⟨u, hash_pass p, r⟩]), 0) := by
    simp only [registerMain, h]
    rfl
  have h2 : registerMain f u p r true =
      some (.withUsers (normalizeUsers doc ++ [⟨u, hash_pass p, r⟩]), 0) := by
    simp only [registerMain, h]
    rfl
  exact ⟨h1, h1.trans h2.symm⟩

/-- Witness for C6 amended: a concrete run with a failing write exits 0
and matches the successful-write run. -/
theorem register_exit_zero_ignores_write_witness :
    registerMain .missing "a" "b" "c" false =
      some (.withUsers [⟨"a", hash_pass "b", "c"⟩], 0) ∧
    registerMain .missing "a" "b" "c" false =
      registerMain .missing "a" "b" "c" true :=
  register_exit_zero_ignores_write .missing .noUsers "a" "b" "c" false rfl

/-- C7: the hash function is the fixed prefix `HASH_` glued onto the
verbatim plaintext; it is injective; register stores exactly
`hash_pass password` in the appended record; and the scan decides
success at a username-matching record by comparing the stored
`password_hash` with `hash_pass` of the input password. -/
theorem hash_pass_spec (p p₁ p₂ : String) (hne : p₁ ≠ p₂) :
    hash_pass p = "HASH_" ++ p ∧
    hash_pass p₁ ≠ hash_pass p₂ ∧
    (∀ (f : StoreFile) (doc : StoreDoc) (u r : String) (w : Bool),
      load f = .ok doc →
      registerMain f u p r w =
        some (.withUsers (normalizeUsers doc ++ [⟨u, hash_pass p, r⟩]), 0)) ∧
    (∀ (e : UserRecord) (l : List UserRecord),
      scanUsers e.username p (e :: l) =
        if e.password_hash = hash_pass p then
          ⟨"Logged in as " ++ e.username ++ " (" ++ e.role ++ ")", 0⟩
        else ⟨"Incorrect password", 1⟩) := by
  refine ⟨rfl, fun hcontra => hne (hash_pass_injective hcontra), ?_, ?_⟩
  · intro f doc u r w h
    simp only [registerMain, h]
    rfl
  · intro e l
    simp [scanUsers]

/-- Witness for C7: evaluated at `p = "x"`, `p₁ = "a"`, `p₂ = "b"`, with
the register conjunct instantiated at the empty store. -/
theorem hash_pass_spec_witness :
    hash_pass "x" = "HASH_x" ∧
    hash_pass "a" ≠ hash_pass "b" ∧
    registerMain .missing "u" "x" "r" true =
      some (.withUsers [⟨"u", hash_pass "x", "r"⟩], 0) := by
  have h := hash_pass_spec "x" "a" "b" (by decide)
  exact ⟨h.1, h.2.1, h.2.2.1 .missing .noUsers "u" "r" true rfl⟩

/-- C8: for every prior store file that parses and every registration,
the file the register process writes (with the write going through)
holds the prior records unchanged, in their original order, followed by
the single new record with the hashed password, and loading that file
back yields exactly that sequence. -/
theorem register_persistence_roundtrip (f : StoreFile) (doc : StoreDoc)
    (u p r : String) (h : load f = .ok doc) :
    registerMain f u p r true =
      some (.withUsers (normalizeUsers doc ++ [⟨u, hash_pass p, r⟩]), 0) ∧
    load (.withUsers (normalizeUsers doc ++ [⟨u, hash_pass p, r⟩])) =
      .ok (.users (normalizeUsers doc ++ [⟨u, hash_pass p, r⟩])) := by
  refine ⟨?_, rfl⟩
  simp only [registerMain, h]
  rfl

/-- Witness for C8: the round trip from a one-record prior store. -/
theorem register_persistence_roundtrip_witness :
    registerMain (.withUsers [⟨"a", "HASH_x", "r"⟩]) "b" "y" "s" true =
      some (.withUsers [⟨"a", "HASH_x", "r"⟩, ⟨"b", hash_pass "y", "s"⟩], 0) ∧
    load (.withUsers [⟨"a", "HASH_x", "r"⟩, ⟨"b", hash_pass "y", "s"⟩]) =
      .ok (.users [⟨"a", "HASH_x", "r"⟩, ⟨"b", hash_pass "y", "s"⟩]) :=
  register_persistence_roundtrip (.withUsers [⟨"a", "HASH_x", "r"⟩])
    (.users [⟨"a", "HASH_x", "r"⟩]) "b" "y" "s" rfl

/-- C9: the loader is deterministic and read-only, so loading the same
file twice with no intervening write yields equal results: one load
leaves the file unchanged, and a second load of the file it leaves
behind parses to the same value. -/
theorem loader_deterministic_idempotent (f : StoreFile) :
    (loadStep f).1 = f ∧
    (loadStep ((loadStep f).1)).2 = (loadStep f).2 :=
  ⟨rfl, rfl⟩

/-- C10: whenever every record of the loaded (normalized) store has a
`HASH_`-tagged password hash, every record of the sequence the register
process writes does too: the prior records keep the property and the
one appended record has `password_hash = "HASH_" ++ p`, which starts
with the tag for every `p`, the empty password included. -/
theorem register_preserves_hash_invariant (f : StoreFile) (doc : StoreDoc)
    (u p r : String) (w : Bool) (hl : load f = .ok doc)
    (hinv : ∀ e ∈ normalizeUsers doc, hashTagged e) :
    ∀ (recs : List UserRecord) (c : Nat),
      registerMain f u p r w = some (.withUsers recs, c) →
      ∀ e ∈ recs, hashTagged e := by
  intro recs c hrun e he
  have hrecs : recs = normalizeUsers doc ++ [⟨u, "HASH_" ++ p, r⟩] := by
    simp only [registerMain, hl, Option.some.injEq, Prod.mk.injEq] at hrun
    exact (StoreFile.withUsers.injEq _ _ ▸ hrun.1).symm
  subst hrecs
  rcases List.mem_append.mp he with hprior | hnew
  · exact hinv e hprior
  · have : e = ⟨u, "HASH_" ++ p, r⟩ := by simpa using hnew
    subst this
    exact ⟨p.data, (String.data_append "HASH_" p).symm⟩

/-- Witness for C10: registering with the empty password onto the empty
store gives the record with `password_hash = "HASH_"`, which carries the
tag. -/
theorem register_preserves_hash_invariant_witness :
    hashTagged ⟨"a", "HASH_", "r"⟩ :=
  register_preserves_hash_invariant .missing .noUsers "a" "" "r" true rfl
    (by simp [normalizeUsers]) [⟨"a", "HASH_", "r"⟩] 0 rfl
    ⟨"a", "HASH_", "r"⟩ (by simp)
